import Mathlib

/-!
Shallow embedding of the `prettyslog` Go package: a `log/slog` handler that
renders one log record per line, with a scope stack, inherited attributes,
nested attribute groups flattened into dotted keys, and optional ANSI colors.

Modelling conventions:
* `slog.Level` is an `Int` (Debug = -4, Info = 0, Warn = 4, Error = 8).
* A scalar attribute value is modelled by the string `fmt.Sprintf("%v", v)`
  produces for it (the generic to-string conversion is host code).
* A record's time is `Option String`: `none` models a zero `time.Time`
  (skipped even when timestamps are enabled), `some t` models a non-zero time
  whose formatting under the handler's format string yields `t`.  Likewise
  `source` models the resolved `"file:line"` string when the record's PC is
  non-zero.
* The sink (`io.Writer`) and the mutex are external collaborators; `handle`
  takes the sink's write operation as a function `String → Option E`
  (`none` = nil error) and returns the string actually written (if any)
  together with the returned error, making the write effect explicit.
-/

namespace Prettyslog

def FgRed : String := "\x1b[31m"
def FgGreen : String := "\x1b[32m"
def FgYellow : String := "\x1b[33m"
def FgBlue : String := "\x1b[34m"
def FgMagenta : String := "\x1b[35m"
def FgCyan : String := "\x1b[36m"
def FgWhite : String := "\x1b[37m"
def FgGray : String := "\x1b[90m"

def ColorReset : String := "\x1b[0m"

/-- `slog.LevelDebug` -/
def LevelDebug : Int := -4
/-- `slog.LevelInfo` -/
def LevelInfo : Int := 0
/-- `slog.LevelWarn` -/
def LevelWarn : Int := 4
/-- `slog.LevelError` -/
def LevelError : Int := 8

/-- A `slog.Attr`: a key and a value that is either a scalar (modelled by its
rendered string) or a nested group of attributes (`slog.KindGroup`). -/
inductive Attr where
  | scalar (key : String) (value : String)
  | group (key : String) (children : List Attr)
deriving Repr

/-- The `options` struct.  `writer` is the external sink and is not part of
the pure state (see module header); the remaining fields are carried
verbatim.  `levelColors` is the `map[slog.Level]string`, modelled as an
association list with the map's lookup-or-zero-value semantics. -/
structure Options where
  includeTimestamp : Bool
  includeSource : Bool
  colors : Bool
  levelColors : List (Int × String)
  timestampFormat : String
  level : Int
deriving Repr

/-- Go map lookup `m[l]`: the zero value `""` when the key is absent. -/
def lookupColor (m : List (Int × String)) (l : Int) : String :=
  match m.find? (fun p => p.1 == l) with
  | some p => p.2
  | none => ""

/-- The `PrettyslogHandler` struct (minus the shared mutex and writer, which
are external). -/
structure PrettyslogHandler where
  groups : List String
  opts : Options
  attrs : List Attr
deriving Repr

/-- An `Option func(*options)`, applied by mutation in Go; pure here. -/
def Opt := Options → Options

def defaultOptions : Options :=
  { includeTimestamp := true
    includeSource := false
    colors := true
    timestampFormat := "[15:04:05.000]"
    levelColors :=
      [(LevelDebug, FgMagenta), (LevelInfo, FgBlue),
       (LevelWarn, FgYellow), (LevelError, FgRed)]
    level := LevelInfo }

def WithTimestamp (enabled : Bool) : Opt :=
  fun o => { o with includeTimestamp := enabled }

def WithSource (enabled : Bool) : Opt :=
  fun o => { o with includeSource := enabled }

def WithColors (enabled : Bool) : Opt :=
  fun o => { o with colors := enabled }

def WithLevel (level : Int) : Opt :=
  fun o => { o with level := level }

def WithTimestampFormat (format : String) : Opt :=
  fun o => { o with timestampFormat := format }

def newPrettyslogHandler (group : String) (opts : List Opt) : PrettyslogHandler :=
  let options := opts.foldl (fun o f => f o) defaultOptions
  { groups := [group], opts := options, attrs := [] }

/-- A `slog.Record` as consumed by `Handle` (see module header for the
`time` / `source` modelling). -/
structure Record where
  level : Int
  message : String
  time : Option String
  source : Option String
  attrs : List Attr
deriving Repr

/-- `Enabled`: `level >= h.opts.level.Level()`. -/
def enabled (h : PrettyslogHandler) (level : Int) : Bool :=
  level ≥ h.opts.level

/-- `colorize` (a method whose receiver is unused). -/
def colorize (text : String) (enable : Bool) (colorCode : String) : String :=
  if !enable || colorCode == "" then text
  else colorCode ++ text ++ ColorReset

/-- The level-color computation done identically in `formatLevel` (lines
192-195) and in `Handle` (lines 156-159): map lookup with `FgWhite` as the
fallback for an empty result. -/
def levelColorFor (h : PrettyslogHandler) (level : Int) : String :=
  let colorCode := lookupColor h.opts.levelColors level
  if colorCode == "" then FgWhite else colorCode

/-- `formatLevel`. -/
def formatLevel (h : PrettyslogHandler) (level : Int) : String :=
  let levelStr :=
    if level == LevelDebug then "DBG"
    else if level == LevelInfo then "INF"
    else if level == LevelWarn then "WAR"
    else if level == LevelError then "ERR"
    else "UNK"
  colorize levelStr h.opts.colors (levelColorFor h level)

/-- `collectAttrs`: the handler's inherited attributes followed by the
record's own attributes, in iteration order. -/
def collectAttrs (h : PrettyslogHandler) (r : Record) : List Attr :=
  h.attrs ++ r.attrs

mutual

/-- `formatAttr`: a scalar renders `key=value` (key prefixed when a dotted
prefix is active); a group renders only its children, each preceded by its
own `"; "` separator, under the extended prefix. -/
def formatAttr (h : PrettyslogHandler) (attr : Attr) (levelColor : String)
    (pfx : String) : String :=
  match attr with
  | .group groupName groupAttrs =>
      let newPfx := if pfx != "" then pfx ++ "." ++ groupName else groupName
      formatAttrLoop h groupAttrs levelColor newPfx
  | .scalar key value =>
      let key := if pfx != "" then pfx ++ "." ++ key else key
      colorize key h.opts.colors levelColor
        ++ colorize "=" h.opts.colors FgGray
        ++ colorize value h.opts.colors ""

/-- The loop body shared by `formatAttrs` and `formatAttr`'s group branch:
for each attribute, a muted `";"` plus a space, then the attribute itself. -/
def formatAttrLoop (h : PrettyslogHandler) (attrs : List Attr)
    (levelColor : String) (pfx : String) : String :=
  match attrs with
  | [] => ""
  | a :: rest =>
      colorize ";" h.opts.colors FgGray ++ " "
        ++ formatAttr h a levelColor pfx
        ++ formatAttrLoop h rest levelColor pfx

end

/-- `formatAttrs`: the top-level attribute loop (empty prefix). -/
def formatAttrs (h : PrettyslogHandler) (attrs : List Attr)
    (levelColor : String) : String :=
  match attrs with
  | [] => ""
  | a :: rest =>
      colorize ";" h.opts.colors FgGray ++ " "
        ++ formatAttr h a levelColor ""
        ++ formatAttrs h rest levelColor

/-- An optional muted segment of the line (timestamp or source): present
when the feature flag is on and the record carries the value (`if
h.opts.includeTimestamp && !r.Time.IsZero()` resp. `if h.opts.includeSource
&& r.PC != 0`), rendered in `FgGray` and followed by one space. -/
def mutedOptPart (flag : Bool) (x : Option String) (e : Bool) : String :=
  if flag then
    match x with
    | some t => colorize t e FgGray ++ " "
    | none => ""
  else ""

/-- Everything `Handle` writes after the scope label and its trailing
space: level tag, optional timestamp, optional source, message, and the
attribute section (guarded by `len(attrs) > 0` as in the source). -/
def lineAfterScope (h : PrettyslogHandler) (r : Record) : String :=
  let levelPart := formatLevel h r.level ++ " "
  let tsPart := mutedOptPart h.opts.includeTimestamp r.time h.opts.colors
  let srcPart := mutedOptPart h.opts.includeSource r.source h.opts.colors
  let msgPart := colorize r.message h.opts.colors ""
  let attrs := collectAttrs h r
  let attrsPart :=
    if attrs.length > 0 then formatAttrs h attrs (levelColorFor h r.level)
    else ""
  levelPart ++ tsPart ++ srcPart ++ msgPart ++ attrsPart

/-- The line body built by `Handle` before the trailing newline; the scope
label is `h.groups[len(h.groups)-1]` (modelled total via `getLastD`; see the
reachability theorem for why the index is always in bounds). -/
def lineBody (h : PrettyslogHandler) (r : Record) : String :=
  colorize (h.groups.getLastD "") h.opts.colors "" ++ " " ++ lineAfterScope h r

/-- The full line `Handle` writes for an enabled record. -/
def handleLine (h : PrettyslogHandler) (r : Record) : String :=
  lineBody h r ++ "\n"

/-- `Handle`: gate on `Enabled`, then build the line and write it once.
Returns the string written to the sink (`none` when the gate rejects and no
write happens) paired with the returned error (`none` = nil). -/
def handle {E : Type} (h : PrettyslogHandler) (r : Record)
    (sinkWrite : String → Option E) : Option String × Option E :=
  if enabled h r.level then
    let line := handleLine h r
    (some line, sinkWrite line)
  else (none, none)

/-- `WithAttrs`: identity on an empty list, otherwise a copy of the handler
with an independent attribute sequence `h.attrs ++ attrs`
(`append(append([]slog.Attr{}, h.attrs...), attrs...)`). -/
def withAttrs (h : PrettyslogHandler) (attrs : List Attr) : PrettyslogHandler :=
  if attrs.length == 0 then h
  else { h with attrs := h.attrs ++ attrs }

/-- `WithGroup`: identity on the empty name, otherwise a copy of the handler
with an independent scope stack `h.groups ++ [name]`. -/
def withGroup (h : PrettyslogHandler) (name : String) : PrettyslogHandler :=
  if name == "" then h
  else { h with groups := h.groups ++ [name] }

/-- The handler instances reachable from some root: those built by
`NewPrettyslogHandler` followed by any sequence of `WithAttrs` / `WithGroup`
derivations. -/
inductive Reachable : PrettyslogHandler → Prop where
  | root (group : String) (opts : List Opt) :
      Reachable (newPrettyslogHandler group opts)
  | viaWithAttrs {h : PrettyslogHandler} (attrs : List Attr) :
      Reachable h → Reachable (withAttrs h attrs)
  | viaWithGroup {h : PrettyslogHandler} (name : String) :
      Reachable h → Reachable (withGroup h name)

/-! ### Observations over rendered lines -/

/-- Number of `';'` characters in a string.  When all payload strings are
semicolon-free, each rendered `"; "` separator contributes exactly one. -/
def countSemi (s : String) : Nat := s.data.count ';'

/-- `s` contains no `';'` character. -/
def semiFree (s : String) : Bool := s.data.all (fun c => c != ';')

/-- The ANSI escape character that starts every color control sequence. -/
def escChar : Char := '\x1b'

/-- `s` contains no ANSI escape character. -/
def escFree (s : String) : Bool := s.data.all (fun c => c != escChar)

mutual

/-- All keys and scalar values in the attribute tree are semicolon-free. -/
def attrSemiFree : Attr → Bool
  | .scalar k v => semiFree k && semiFree v
  | .group k cs => semiFree k && attrsSemiFree cs

def attrsSemiFree : List Attr → Bool
  | [] => true
  | a :: rest => attrSemiFree a && attrsSemiFree rest

end

mutual

/-- All keys and scalar values in the attribute tree are escape-free. -/
def attrEscFree : Attr → Bool
  | .scalar k v => escFree k && escFree v
  | .group k cs => escFree k && attrsEscFree cs

def attrsEscFree : List Attr → Bool
  | [] => true
  | a :: rest => attrEscFree a && attrsEscFree rest

end

mutual

/-- Number of scalar (leaf) attributes after flattening nested groups. -/
def leafCount : Attr → Nat
  | .scalar _ _ => 1
  | .group _ cs => leafCountList cs

def leafCountList : List Attr → Nat
  | [] => 0
  | a :: rest => leafCount a + leafCountList rest

end

mutual

/-- Number of attribute nodes (scalar leaves and groups alike). -/
def nodeCount : Attr → Nat
  | .scalar _ _ => 1
  | .group _ cs => 1 + nodeCountList cs

def nodeCountList : List Attr → Nat
  | [] => 0
  | a :: rest => nodeCount a + nodeCountList rest

end

/-- Message, timestamp, source and attribute payloads are semicolon-free. -/
def recordSemiFree (r : Record) : Bool :=
  semiFree r.message
    && (match r.time with | some t => semiFree t | none => true)
    && (match r.source with | some s => semiFree s | none => true)
    && attrsSemiFree r.attrs

/-- Message, timestamp, source and attribute payloads are escape-free. -/
def recordEscFree (r : Record) : Bool :=
  escFree r.message
    && (match r.time with | some t => escFree t | none => true)
    && (match r.source with | some s => escFree s | none => true)
    && attrsEscFree r.attrs

/-! ### Concrete instances used to evaluate the definitions -/

/-- A root handler with the default options. -/
def sampleHandler : PrettyslogHandler := newPrettyslogHandler "TestApp" []

/-- A root handler with colors disabled. -/
def plainHandler : PrettyslogHandler :=
  newPrettyslogHandler "TestApp" [WithColors false]

/-- An Info record with one flat attribute. -/
def sampleRecord : Record :=
  { level := LevelInfo, message := "Test message", time := none,
    source := none, attrs := [Attr.scalar "key" "value"] }

/-- A Debug record (below the default minimum level). -/
def debugRecord : Record := { sampleRecord with level := LevelDebug }

/-- An Info record with a single group attribute holding one scalar child. -/
def groupRecord : Record :=
  { level := LevelInfo, message := "m", time := none, source := none,
    attrs := [Attr.group "g" [Attr.scalar "a" "1"]] }

/-! ### Basic lemmas about the observations -/

theorem countSemi_append (s t : String) :
    countSemi (s ++ t) = countSemi s + countSemi t := by
  simp [countSemi, String.data_append, List.count_append]

theorem semiFree_append (s t : String) :
    semiFree (s ++ t) = (semiFree s && semiFree t) := by
  simp [semiFree, String.data_append, List.all_append]

theorem escFree_append (s t : String) :
    escFree (s ++ t) = (escFree s && escFree t) := by
  simp [escFree, String.data_append, List.all_append]

theorem countSemi_eq_zero (s : String) (h : semiFree s = true) :
    countSemi s = 0 := by
  simp only [countSemi, List.count_eq_zero]
  intro hc
  have := List.all_eq_true.mp h _ hc
  simp at this

/-! ### Lemmas about `colorize` -/

theorem colorize_disabled (t c : String) : colorize t false c = t := by
  simp [colorize]

theorem colorize_empty (t : String) (e : Bool) : colorize t e "" = t := by
  simp [colorize]

theorem colorize_enabled (t c : String) (h : c ≠ "") :
    colorize t true c = c ++ t ++ ColorReset := by
  simp [colorize, h]

theorem countSemi_colorize (t : String) (e : Bool) (c : String)
    (hc : semiFree c = true) : countSemi (colorize t e c) = countSemi t := by
  unfold colorize
  split
  · rfl
  · rw [countSemi_append, countSemi_append, countSemi_eq_zero c hc,
      countSemi_eq_zero ColorReset (by decide)]
    omega

/-! ### Lemmas about the attribute predicates and counts -/

theorem attrsSemiFree_append (xs ys : List Attr) :
    attrsSemiFree (xs ++ ys) = (attrsSemiFree xs && attrsSemiFree ys) := by
  induction xs with
  | nil => simp [attrsSemiFree]
  | cons a rest ih => simp [attrsSemiFree, ih, Bool.and_assoc]

theorem attrsEscFree_append (xs ys : List Attr) :
    attrsEscFree (xs ++ ys) = (attrsEscFree xs && attrsEscFree ys) := by
  induction xs with
  | nil => simp [attrsEscFree]
  | cons a rest ih => simp [attrsEscFree, ih, Bool.and_assoc]

theorem nodeCountList_append (xs ys : List Attr) :
    nodeCountList (xs ++ ys) = nodeCountList xs + nodeCountList ys := by
  induction xs with
  | nil => simp [nodeCountList]
  | cons a rest ih => simp [nodeCountList, ih]; omega

theorem leafCountList_append (xs ys : List Attr) :
    leafCountList (xs ++ ys) = leafCountList xs + leafCountList ys := by
  induction xs with
  | nil => simp [leafCountList]
  | cons a rest ih => simp [leafCountList, ih]; omega

theorem semiFree_extendPfx (pfx k : String) (h1 : semiFree pfx = true)
    (h2 : semiFree k = true) :
    semiFree (if pfx != "" then pfx ++ "." ++ k else k) = true := by
  split
  · simp [semiFree_append, h1, h2]
    decide
  · exact h2

theorem escFree_extendPfx (pfx k : String) (h1 : escFree pfx = true)
    (h2 : escFree k = true) :
    escFree (if pfx != "" then pfx ++ "." ++ k else k) = true := by
  split
  · simp [escFree_append, h1, h2]
    decide
  · exact h2

/-! ### Lemmas about the attribute formatting loops -/

theorem formatAttrLoop_append (h : PrettyslogHandler) (xs ys : List Attr)
    (lc pfx : String) :
    formatAttrLoop h (xs ++ ys) lc pfx
      = formatAttrLoop h xs lc pfx ++ formatAttrLoop h ys lc pfx := by
  induction xs with
  | nil => simp [formatAttrLoop]
  | cons a rest ih => simp [formatAttrLoop, ih, String.append_assoc]

theorem formatAttrs_eq_loop (h : PrettyslogHandler) (attrs : List Attr)
    (lc : String) :
    formatAttrs h attrs lc = formatAttrLoop h attrs lc "" := by
  induction attrs with
  | nil => rfl
  | cons a rest ih => simp [formatAttrs, formatAttrLoop, ih]

mutual

theorem countSemi_formatAttr (h : PrettyslogHandler) (a : Attr) (lc pfx : String)
    (hlc : semiFree lc = true) (hpfx : semiFree pfx = true)
    (ha : attrSemiFree a = true) :
    countSemi (formatAttr h a lc pfx) + 1 = nodeCount a := by
  cases a with
  | scalar k v =>
      simp only [attrSemiFree, Bool.and_eq_true] at ha
      obtain ⟨hk, hv⟩ := ha
      have hkey := semiFree_extendPfx pfx k hpfx hk
      simp only [formatAttr]
      rw [countSemi_append, countSemi_append,
        countSemi_colorize _ _ _ hlc,
        countSemi_colorize _ _ _ (by decide : semiFree FgGray = true),
        colorize_empty, countSemi_eq_zero _ hkey, countSemi_eq_zero _ hv,
        countSemi_eq_zero "=" (by decide)]
      simp [nodeCount]
  | group k cs =>
      simp only [attrSemiFree, Bool.and_eq_true] at ha
      obtain ⟨hk, hcs⟩ := ha
      have hnew := semiFree_extendPfx pfx k hpfx hk
      simp only [formatAttr]
      rw [countSemi_formatAttrLoop h cs lc _ hlc hnew hcs]
      simp [nodeCount]
      omega

theorem countSemi_formatAttrLoop (h : PrettyslogHandler) (attrs : List Attr)
    (lc pfx : String)
    (hlc : semiFree lc = true) (hpfx : semiFree pfx = true)
    (hs : attrsSemiFree attrs = true) :
    countSemi (formatAttrLoop h attrs lc pfx) = nodeCountList attrs := by
  cases attrs with
  | nil =>
      simp [formatAttrLoop, nodeCountList, countSemi]
  | cons a rest =>
      simp only [attrsSemiFree, Bool.and_eq_true] at hs
      obtain ⟨ha, hrest⟩ := hs
      have h1 := countSemi_formatAttr h a lc pfx hlc hpfx ha
      have h2 := countSemi_formatAttrLoop h rest lc pfx hlc hpfx hrest
      simp only [formatAttrLoop]
      rw [countSemi_append, countSemi_append, countSemi_append,
        countSemi_colorize _ _ _ (by decide : semiFree FgGray = true),
        countSemi_eq_zero " " (by decide)]
      have h3 : countSemi ";" = 1 := by decide
      simp only [nodeCountList]
      omega

end

theorem countSemi_formatLevel (h : PrettyslogHandler) (l : Int)
    (hc : semiFree (levelColorFor h l) = true) :
    countSemi (formatLevel h l) = 0 := by
  simp only [formatLevel]
  rw [countSemi_colorize _ _ _ hc]
  split_ifs <;> decide

theorem formatLevel_colors_off (h : PrettyslogHandler) (l : Int)
    (hcol : h.opts.colors = false) :
    escFree (formatLevel h l) = true := by
  simp only [formatLevel, hcol, colorize_disabled]
  split_ifs <;> decide

mutual

theorem escFree_formatAttr (h : PrettyslogHandler) (a : Attr) (lc pfx : String)
    (hcol : h.opts.colors = false) (hpfx : escFree pfx = true)
    (ha : attrEscFree a = true) :
    escFree (formatAttr h a lc pfx) = true := by
  cases a with
  | scalar k v =>
      simp only [attrEscFree, Bool.and_eq_true] at ha
      obtain ⟨hk, hv⟩ := ha
      have hkey := escFree_extendPfx pfx k hpfx hk
      simp only [formatAttr, hcol, colorize_disabled]
      rw [escFree_append, escFree_append, hkey, hv,
        (by decide : escFree "=" = true)]
      rfl
  | group k cs =>
      simp only [attrEscFree, Bool.and_eq_true] at ha
      obtain ⟨hk, hcs⟩ := ha
      have hnew := escFree_extendPfx pfx k hpfx hk
      simp only [formatAttr]
      exact escFree_formatAttrLoop h cs lc _ hcol hnew hcs

theorem escFree_formatAttrLoop (h : PrettyslogHandler) (attrs : List Attr)
    (lc pfx : String)
    (hcol : h.opts.colors = false) (hpfx : escFree pfx = true)
    (hs : attrsEscFree attrs = true) :
    escFree (formatAttrLoop h attrs lc pfx) = true := by
  cases attrs with
  | nil =>
      simp only [formatAttrLoop]
      decide
  | cons a rest =>
      simp only [attrsEscFree, Bool.and_eq_true] at hs
      obtain ⟨ha, hrest⟩ := hs
      have h1 := escFree_formatAttr h a lc pfx hcol hpfx ha
      have h2 := escFree_formatAttrLoop h rest lc pfx hcol hpfx hrest
      simp only [formatAttrLoop, hcol, colorize_disabled]
      rw [escFree_append, escFree_append, escFree_append, h1, h2,
        (by decide : escFree ";" = true), (by decide : escFree " " = true)]
      rfl

end

/-! ### The rendering depends on the handler only through opts and attrs -/

theorem levelColorFor_congr (h h' : PrettyslogHandler)
    (hopts : h.opts = h'.opts) (l : Int) :
    levelColorFor h l = levelColorFor h' l := by
  simp only [levelColorFor]
  rw [hopts]

theorem formatLevel_congr (h h' : PrettyslogHandler)
    (hopts : h.opts = h'.opts) (l : Int) :
    formatLevel h l = formatLevel h' l := by
  simp only [formatLevel]
  rw [hopts, levelColorFor_congr h h' hopts]

mutual

theorem formatAttr_congr (h h' : PrettyslogHandler)
    (hopts : h.opts = h'.opts) (a : Attr) (lc pfx : String) :
    formatAttr h a lc pfx = formatAttr h' a lc pfx := by
  cases a with
  | scalar k v =>
      simp only [formatAttr]
      rw [hopts]
  | group k cs =>
      simp only [formatAttr]
      exact formatAttrLoop_congr h h' hopts cs lc _

theorem formatAttrLoop_congr (h h' : PrettyslogHandler)
    (hopts : h.opts = h'.opts) (attrs : List Attr) (lc pfx : String) :
    formatAttrLoop h attrs lc pfx = formatAttrLoop h' attrs lc pfx := by
  cases attrs with
  | nil => rfl
  | cons a rest =>
      simp only [formatAttrLoop]
      rw [hopts, formatAttr_congr h h' hopts a lc pfx,
        formatAttrLoop_congr h h' hopts rest lc pfx]

end

theorem formatAttrs_congr (h h' : PrettyslogHandler)
    (hopts : h.opts = h'.opts) (attrs : List Attr) (lc : String) :
    formatAttrs h attrs lc = formatAttrs h' attrs lc := by
  rw [formatAttrs_eq_loop, formatAttrs_eq_loop]
  exact formatAttrLoop_congr h h' hopts attrs lc ""

theorem lineAfterScope_congr (h h' : PrettyslogHandler)
    (hopts : h.opts = h'.opts) (hattrs : h.attrs = h'.attrs) (r : Record) :
    lineAfterScope h r = lineAfterScope h' r := by
  simp only [lineAfterScope, collectAttrs]
  rw [formatLevel_congr h h' hopts, levelColorFor_congr h h' hopts,
    formatAttrs_congr h h' hopts, hopts, hattrs]

/-! ### Lemmas about the line segments -/

theorem countSemi_mutedOptPart (flag e : Bool) (x : Option String)
    (hx : (match x with | some t => semiFree t | none => true) = true) :
    countSemi (mutedOptPart flag x e) = 0 := by
  cases flag with
  | false => rfl
  | true =>
      cases x with
      | none => rfl
      | some t =>
          simp only at hx
          simp only [mutedOptPart, if_true]
          rw [countSemi_append,
            countSemi_colorize _ _ _ (by decide : semiFree FgGray = true),
            countSemi_eq_zero t hx]
          rfl

theorem escFree_mutedOptPart (flag : Bool) (x : Option String)
    (hx : (match x with | some t => escFree t | none => true) = true) :
    escFree (mutedOptPart flag x false) = true := by
  cases flag with
  | false => rfl
  | true =>
      cases x with
      | none => rfl
      | some t =>
          simp only at hx
          simp only [mutedOptPart, colorize_disabled, if_true]
          rw [escFree_append, hx]
          rfl

theorem countSemi_attrsSection (h : PrettyslogHandler) (attrs : List Attr)
    (lc : String) (hlc : semiFree lc = true)
    (ha : attrsSemiFree attrs = true) :
    countSemi (if attrs.length > 0 then formatAttrs h attrs lc else "")
      = nodeCountList attrs := by
  split
  · rw [formatAttrs_eq_loop]
    exact countSemi_formatAttrLoop h attrs lc "" hlc (by decide) ha
  · next hlen =>
      have hnil : attrs = [] := by
        cases attrs with
        | nil => rfl
        | cons a rest => exact absurd (by simp) hlen
      subst hnil
      rfl

theorem escFree_attrsSection (h : PrettyslogHandler) (attrs : List Attr)
    (lc : String) (hcol : h.opts.colors = false)
    (ha : attrsEscFree attrs = true) :
    escFree (if attrs.length > 0 then formatAttrs h attrs lc else "")
      = true := by
  split
  · rw [formatAttrs_eq_loop]
    exact escFree_formatAttrLoop h attrs lc "" hcol (by decide) ha
  · rfl

theorem lineAfterScope_groups_irrel (h : PrettyslogHandler)
    (g : List String) (r : Record) :
    lineAfterScope { h with groups := g } r = lineAfterScope h r :=
  lineAfterScope_congr { h with groups := g } h rfl rfl r

/-- The attribute section gains exactly one separator plus the rendering of
`a` when `a` is appended to the collected attribute list. -/
theorem attrsSection_concat (h : PrettyslogHandler) (xs : List Attr)
    (a : Attr) (lc : String) :
    (if (xs ++ [a]).length > 0 then formatAttrs h (xs ++ [a]) lc else "")
      = (if xs.length > 0 then formatAttrs h xs lc else "")
        ++ (colorize ";" h.opts.colors FgGray ++ " " ++ formatAttr h a lc "") := by
  rw [if_pos (by simp)]
  rw [formatAttrs_eq_loop, formatAttrLoop_append]
  have hone : formatAttrLoop h [a] lc ""
      = colorize ";" h.opts.colors FgGray ++ " " ++ formatAttr h a lc "" := by
    simp only [formatAttrLoop]
    simp [String.append_assoc]
  rw [hone]
  by_cases hxs : xs.length > 0
  · rw [if_pos hxs, formatAttrs_eq_loop]
  · rw [if_neg hxs]
    have hnil : xs = [] := by
      cases xs with
      | nil => rfl
      | cons b rest => exact absurd (by simp) hxs
    subst hnil
    simp [formatAttrLoop]

/-! ### Lemmas about the derivation operations -/

theorem withAttrs_groups_eq (h : PrettyslogHandler) (attrs : List Attr) :
    (withAttrs h attrs).groups = h.groups := by
  unfold withAttrs
  split <;> rfl

theorem withGroup_groups_eq (h : PrettyslogHandler) (name : String) :
    (withGroup h name).groups = h.groups ∨
      (withGroup h name).groups = h.groups ++ [name] := by
  unfold withGroup
  split
  · exact Or.inl rfl
  · exact Or.inr rfl

/-! ### Claim theorems -/

/-- C2: `Enabled(level)` returns true iff `level` is at least the configured
minimum level, and `Handle` on a record whose severity is below the minimum
performs no write on the sink and returns nil. -/
theorem C2_enabled_gate {E : Type} (h : PrettyslogHandler) (l : Int)
    (r : Record) (sinkWrite : String → Option E) :
    (enabled h l = true ↔ h.opts.level ≤ l) ∧
    (r.level < h.opts.level → handle h r sinkWrite = (none, none)) := by
  constructor
  · simp [enabled, ge_iff_le]
  · intro hlt
    have he : enabled h r.level = false := by
      simp [enabled]
      omega
    simp [handle, he]

/-- C2 witness: at the default-options root handler, `Enabled` accepts Info
and `Handle` on a Debug record writes nothing and returns nil. -/
theorem C2_enabled_gate_witness :
    debugRecord.level < sampleHandler.opts.level ∧
    enabled sampleHandler LevelInfo = true ∧
    handle sampleHandler debugRecord (fun _ => (none : Option Nat))
      = (none, none) :=
  ⟨by decide,
   (C2_enabled_gate sampleHandler LevelInfo debugRecord
      (fun _ => (none : Option Nat))).1.mpr (by decide),
   (C2_enabled_gate sampleHandler LevelInfo debugRecord
      (fun _ => (none : Option Nat))).2 (by decide)⟩

/-- C3: `WithAttrs []` and `WithGroup ""` return the very same handler
instance, which therefore renders every record identically. -/
theorem C3_identity_derivations (h : PrettyslogHandler) :
    withAttrs h [] = h ∧ withGroup h "" = h ∧
    (∀ r : Record, handleLine (withAttrs h []) r = handleLine h r ∧
      handleLine (withGroup h "") r = handleLine h r) := by
  refine ⟨rfl, rfl, fun r => ⟨rfl, rfl⟩⟩

/-- C4: for non-empty `newAttrs`, `WithAttrs` yields an instance whose
inherited attributes are the parent's followed by `newAttrs` in order, with
the scope stack and options untouched; `WithGroup` never touches the
attribute sequence or options.  (The Go code copies the receiver and builds
the slice with `append(append([]slog.Attr{}, h.attrs...), attrs...)`, so the
derived sequence is an independent copy and the parent is never mutated;
that copy semantics is what justifies this pure embedding.) -/
theorem C4_extend_attrs (h : PrettyslogHandler) (newAttrs : List Attr)
    (hne : newAttrs ≠ []) :
    (withAttrs h newAttrs).attrs = h.attrs ++ newAttrs ∧
    (withAttrs h newAttrs).groups = h.groups ∧
    (withAttrs h newAttrs).opts = h.opts ∧
    (∀ name : String, (withGroup h name).attrs = h.attrs ∧
      (withGroup h name).opts = h.opts) := by
  have hlen : (newAttrs.length == 0) = false := by
    cases newAttrs with
    | nil => exact absurd rfl hne
    | cons a rest => rfl
  unfold withAttrs
  rw [hlen]
  refine ⟨rfl, rfl, rfl, fun name => ?_⟩
  unfold withGroup
  split <;> exact ⟨rfl, rfl⟩

/-- C4 witness: extending the default root handler with one attribute. -/
theorem C4_extend_attrs_witness :
    [Attr.scalar "k" "v"] ≠ ([] : List Attr) ∧
    (withAttrs sampleHandler [Attr.scalar "k" "v"]).attrs
      = sampleHandler.attrs ++ [Attr.scalar "k" "v"] :=
  ⟨by simp,
   (C4_extend_attrs sampleHandler [Attr.scalar "k" "v"] (by simp)).1⟩

/-- C6: the attributes collected for a record are exactly the inherited
attributes followed by the record's own, and the rendered attribute section
is the rendering of the inherited ones followed by the rendering of the
record's own, each in its original order. -/
theorem C6_inherited_before_own (h : PrettyslogHandler) (r : Record)
    (lc : String) :
    collectAttrs h r = h.attrs ++ r.attrs ∧
    formatAttrs h (collectAttrs h r) lc
      = formatAttrs h h.attrs lc ++ formatAttrs h r.attrs lc := by
  refine ⟨rfl, ?_⟩
  simp only [collectAttrs]
  rw [formatAttrs_eq_loop, formatAttrs_eq_loop, formatAttrs_eq_loop]
  exact formatAttrLoop_append h h.attrs r.attrs lc ""

/-- C8: `Handle` returns nil when the severity gate rejects the record, and
otherwise returns exactly the sink's write result (the error verbatim, no
retry: there is a single write). -/
theorem C8_error_propagation {E : Type} (h : PrettyslogHandler) (r : Record)
    (sinkWrite : String → Option E) :
    (enabled h r.level = false → handle h r sinkWrite = (none, none)) ∧
    (enabled h r.level = true →
      handle h r sinkWrite
        = (some (handleLine h r), sinkWrite (handleLine h r))) := by
  constructor <;> intro he <;> simp [handle, he]

/-- C8 witness: a sink that always fails with `"boom"`; `Handle` on an
enabled record returns exactly that error. -/
theorem C8_error_propagation_witness :
    enabled sampleHandler sampleRecord.level = true ∧
    handle sampleHandler sampleRecord (fun _ => some "boom")
      = (some (handleLine sampleHandler sampleRecord), some "boom") :=
  ⟨by decide,
   (C8_error_propagation sampleHandler sampleRecord
      (fun _ => some "boom")).2 (by decide)⟩

/-- C9: every reachable handler (a root plus any sequence of `WithAttrs` /
`WithGroup` derivations) has a non-empty scope stack, so the access
`h.groups[len(h.groups)-1]` in `Handle` is always in bounds. -/
theorem C9_scope_stack_nonempty (h : PrettyslogHandler)
    (hr : Reachable h) :
    h.groups ≠ [] ∧ (h.groups.getLast?).isSome = true := by
  have hne : h.groups ≠ [] := by
    induction hr with
    | root g opts => simp [newPrettyslogHandler]
    | viaWithAttrs attrs _ ih =>
        rw [withAttrs_groups_eq]
        exact ih
    | viaWithGroup name _ ih =>
        rcases withGroup_groups_eq _ name with hg | hg <;> rw [hg]
        · exact ih
        · simp
  exact ⟨hne, by simp [List.getLast?_isSome, hne]⟩

/-- C9 witness: the sample root handler is reachable and its scope stack is
non-empty. -/
theorem C9_scope_stack_nonempty_witness :
    sampleHandler.groups ≠ [] ∧
    (sampleHandler.groups.getLast?).isSome = true :=
  C9_scope_stack_nonempty sampleHandler (Reachable.root "TestApp" [])

/-- C5: the scope label at the start of the line is exactly the last
element of the scope stack — for a handler derived by `WithGroup` the
pushed name itself, never a concatenation of stack entries — and pushing a
group name changes nothing after the label: in particular the record's
flat attribute keys receive no prefix from the scope stack. -/
theorem C5_scope_label (h : PrettyslogHandler) (r : Record) (name : String)
    (hn : name ≠ "") :
    lineBody h r
      = colorize (h.groups.getLastD "") h.opts.colors "" ++ " "
        ++ lineAfterScope h r ∧
    lineBody (withGroup h name) r
      = colorize name h.opts.colors "" ++ " " ++ lineAfterScope h r := by
  have hg : withGroup h name = { h with groups := h.groups ++ [name] } := by
    unfold withGroup
    rw [if_neg (by simpa using hn)]
  refine ⟨rfl, ?_⟩
  rw [hg]
  simp only [lineBody]
  rw [List.getLastD_concat, lineAfterScope_groups_irrel]

/-- C5 witness: pushing the group `"db"` onto the sample root handler. -/
theorem C5_scope_label_witness :
    "db" ≠ "" ∧
    lineBody (withGroup sampleHandler "db") sampleRecord
      = colorize "db" sampleHandler.opts.colors "" ++ " "
        ++ lineAfterScope sampleHandler sampleRecord :=
  ⟨by decide, (C5_scope_label sampleHandler sampleRecord "db" (by decide)).2⟩

/-- C10: an empty group attribute still receives its own "; " separator and
contributes nothing else, leaving a dangling separator at the end of the
line; in general a group node receives its leading separator from the
enclosing context while each of its children receives its own separator
under the extended prefix. -/
theorem C10_group_own_separator (h : PrettyslogHandler) (r : Record)
    (k : String) (cs rest : List Attr) (lc pfx : String) :
    handleLine h { r with attrs := r.attrs ++ [Attr.group k []] }
      = lineBody h r ++ (colorize ";" h.opts.colors FgGray ++ " ") ++ "\n" ∧
    formatAttrLoop h (Attr.group k cs :: rest) lc pfx
      = colorize ";" h.opts.colors FgGray ++ " "
        ++ formatAttrLoop h cs lc (if pfx != "" then pfx ++ "." ++ k else k)
        ++ formatAttrLoop h rest lc pfx := by
  constructor
  · simp only [handleLine, lineBody, lineAfterScope, collectAttrs]
    rw [← List.append_assoc, attrsSection_concat]
    have hfa : formatAttr h (Attr.group k []) (levelColorFor h r.level) ""
        = "" := rfl
    rw [hfa]
    simp [String.append_assoc]
  · simp only [formatAttrLoop, formatAttr]

/-- C1 as stated is false at this input: a record holding one group with a
single scalar child renders two "; " separators (one for the group node,
one for its child) while the flattened scalar-leaf count is one. -/
theorem C1_counterexample :
    countSemi (handleLine plainHandler groupRecord)
      ≠ leafCountList (collectAttrs plainHandler groupRecord) := by decide

/-- C1 (amended): when every rendered payload (scope label, message,
timestamp, source, attribute keys and values, and the level color code) is
semicolon-free, the number of "; " separators in the line written by
`Handle` equals the total number of attribute NODES — scalar leaves and
group-valued attributes alike — across inherited plus record attributes
after flattening nested groups: a group contributes its own separator in
addition to those of its children. -/
theorem C1_separator_count_nodes (h : PrettyslogHandler) (r : Record)
    (hlabel : semiFree (h.groups.getLastD "") = true)
    (hmsg : semiFree r.message = true)
    (htime : (match r.time with | some t => semiFree t | none => true) = true)
    (hsrc : (match r.source with | some s => semiFree s | none => true) = true)
    (hrattrs : attrsSemiFree r.attrs = true)
    (hinh : attrsSemiFree h.attrs = true)
    (hlc : semiFree (levelColorFor h r.level) = true) :
    countSemi (handleLine h r) = nodeCountList (collectAttrs h r) := by
  simp only [handleLine, lineBody, lineAfterScope, collectAttrs,
    colorize_empty, countSemi_append]
  rw [countSemi_eq_zero _ hlabel, countSemi_eq_zero _ hmsg,
    countSemi_formatLevel h r.level hlc,
    countSemi_mutedOptPart _ _ _ htime,
    countSemi_mutedOptPart _ _ _ hsrc,
    countSemi_attrsSection h _ _ hlc
      (by rw [attrsSemiFree_append, hinh, hrattrs]; rfl)]
  simp only [countSemi_eq_zero " " (by decide),
    countSemi_eq_zero "\n" (by decide)]
  omega

/-- C1 witness: the colors-off root handler and the group record satisfy
every cleanliness hypothesis, and the separator count equals the node
count (here 2). -/
theorem C1_separator_count_nodes_witness :
    semiFree (plainHandler.groups.getLastD "") = true ∧
    countSemi (handleLine plainHandler groupRecord)
      = nodeCountList (collectAttrs plainHandler groupRecord) :=
  ⟨by decide,
   C1_separator_count_nodes plainHandler groupRecord (by decide) (by decide)
     (by decide) (by decide) (by decide) (by decide) (by decide)⟩

/-- C7: `colorize` returns its input unchanged whenever colors are disabled
or the color code is empty, and otherwise wraps the text as
`colorCode ++ text ++ resetCode`; with colors disabled and escape-free
payloads, the line written by `Handle` contains no ANSI escape character. -/
theorem C7_no_escape_when_disabled (h : PrettyslogHandler) (r : Record)
    (text code : String) (e : Bool)
    (hcol : h.opts.colors = false)
    (hlabel : escFree (h.groups.getLastD "") = true)
    (hmsg : escFree r.message = true)
    (htime : (match r.time with | some t => escFree t | none => true) = true)
    (hsrc : (match r.source with | some s => escFree s | none => true) = true)
    (hrattrs : attrsEscFree r.attrs = true)
    (hinh : attrsEscFree h.attrs = true) :
    escFree (handleLine h r) = true ∧
    colorize text false code = text ∧
    colorize text e "" = text ∧
    (code ≠ "" → colorize text true code = code ++ text ++ ColorReset) := by
  refine ⟨?_, colorize_disabled text code, colorize_empty text e,
    fun hc => colorize_enabled text code hc⟩
  simp only [handleLine, lineBody, lineAfterScope, collectAttrs, hcol,
    colorize_disabled, escFree_append]
  rw [hlabel, hmsg, formatLevel_colors_off h r.level hcol,
    escFree_mutedOptPart _ _ htime, escFree_mutedOptPart _ _ hsrc,
    escFree_attrsSection h _ _ hcol
      (by rw [attrsEscFree_append, hinh, hrattrs]; rfl)]
  decide

/-- C7 witness: the colors-off root handler with the sample record. -/
theorem C7_no_escape_when_disabled_witness :
    plainHandler.opts.colors = false ∧
    escFree (handleLine plainHandler sampleRecord) = true :=
  ⟨by decide,
   (C7_no_escape_when_disabled plainHandler sampleRecord "x" FgRed true
      (by decide) (by decide) (by decide) (by decide) (by decide)
      (by decide) (by decide)).1⟩

end Prettyslog
